import Mathlib

/-!
Verification development for the `audiobook_prepper` repository
(`audiobook_prepper/helper.py` and `audiobook_prepper/cli.py`).

The Python code is shallowly embedded: the filesystem and the mutagen
tagging library are modelled by an explicit mapping from path strings to
file objects, glob expansion is a parameter (a function from a pattern to
the list of matching paths), and Python exceptions / `sys.exit` calls
become `Except` error values.
-/

namespace AudiobookPrepper

/-- A tag set as mutagen `EasyID3` exposes it: a finite map from tag keys
to string values, modelled as an association list (first binding wins). -/
abbrev Tags := List (String × String)

/-- `tags[key]`-style lookup on a tag set. -/
def lookupTag (tags : Tags) (key : String) : Option String :=
  match tags with
  | [] => none
  | (k, v) :: rest => if k = key then some v else lookupTag rest key

/-- `id3[tag] = value`: set `key` to `value`, replacing any previous binding. -/
def setTag (tags : Tags) (key value : String) : Tags :=
  match tags with
  | [] => [(key, value)]
  | (k, v) :: rest =>
      if k = key then (key, value) :: rest else (k, v) :: setTag rest key value

/-- What the tagging layer finds at a path when the code opens it:
`audio tags lengthMs bitrate` is a readable MP3 with an ID3 header
(`MP3(file)` and `EasyID3(file)` both succeed; `lengthMs` is the already
converted `int(mp3.info.length * 1000)` and `bitrate` is
`mp3.info.bitrate` in bits per second); `headerless` is a readable MP3
with no ID3 header (`EasyID3(file)` raises `ID3NoHeaderError`); `corrupt
msg` is a file on which opening raises some other exception with message
`msg`. -/
inductive FileObj where
  | audio (tags : Tags) (lengthMs : Nat) (bitrate : Nat)
  | headerless (lengthMs : Nat) (bitrate : Nat)
  | corrupt (msg : String)
  deriving DecidableEq, Repr

/-- The filesystem as the tagging layer sees it. -/
abbrev FS := String → FileObj

/-- The exception `parse_paths` raises on an empty argument list. -/
inductive NoFileInput where
  | noFileInput
  deriving DecidableEq, Repr

/-- Glob expansion (`glob.glob`), abstracted as a parameter: a pattern is
mapped to the list of matching paths. -/
abbrev Glob := String → List String

/-- `"*" in path or "?" in path` from `parse_paths`, as membership of the
character in the path's character data. -/
def hasWildcard (path : String) : Bool :=
  path.data.contains '*' || path.data.contains '?'

/-- Lexicographic comparison of character sequences by code point — the
order Python's `sorted` uses on `str`. -/
def charListLe : List Char → List Char → Bool
  | [], _ => true
  | _ :: _, [] => false
  | a :: as, b :: bs =>
      if a < b then true
      else if b < a then false
      else charListLe as bs

/-- Lexicographic comparison of path strings by code point. -/
def strLe (a b : String) : Bool :=
  charListLe a.data b.data

/-- `strLe` as a relation, for stating sortedness. -/
def strLE (a b : String) : Prop :=
  strLe a b = true

instance : DecidableRel strLE := fun a b =>
  instDecidableEqBool (strLe a b) true

instance : IsTotal String strLE where
  total a b := by
    have H : ∀ as bs : List Char,
        charListLe as bs = true ∨ charListLe bs as = true := by
      intro as
      induction as with
      | nil => intro bs; left; rfl
      | cons a as ih =>
        intro bs
        cases bs with
        | nil => right; rfl
        | cons b bs =>
          by_cases hab : a < b
          · left; simp [charListLe, hab]
          · by_cases hba : b < a
            · right; simp [charListLe, hba]
            · simpa [charListLe, hab, hba] using ih bs
    exact H a.data b.data

instance : IsTrans String strLE where
  trans a b c hab hbc := by
    unfold strLE strLe at hab hbc ⊢
    have H : ∀ as bs cs : List Char, charListLe as bs = true →
        charListLe bs cs = true → charListLe as cs = true := by
      intro as
      induction as with
      | nil => intro bs cs _ _; rfl
      | cons a as ih =>
        intro bs cs h1 h2
        cases bs with
        | nil => simp [charListLe] at h1
        | cons b bs =>
          cases cs with
          | nil => simp [charListLe] at h2
          | cons c cs =>
            by_cases hab1 : a < b
            · by_cases hbc1 : b < c
              · simp [charListLe, lt_trans hab1 hbc1]
              · by_cases hcb : c < b
                · simp [charListLe, hbc1, hcb] at h2
                · have hbceq : b = c := le_antisymm (not_lt.mp hcb) (not_lt.mp hbc1)
                  subst hbceq
                  simp [charListLe, hab1]
            · by_cases hba : b < a
              · simp [charListLe, hab1, hba] at h1
              · have habeq : a = b := le_antisymm (not_lt.mp hba) (not_lt.mp hab1)
                subst habeq
                by_cases hac : a < c
                · simp [charListLe, hac]
                · by_cases hca : c < a
                  · simp [charListLe, hac, hca] at h2
                  · simp [charListLe, hac, hca, lt_irrefl] at h1 h2 ⊢
                    exact ih bs cs h1 h2
    exact H a.data b.data c.data hab hbc

instance {ε α : Type} [DecidableEq ε] [DecidableEq α] : DecidableEq (Except ε α) :=
  fun x y =>
    match x, y with
    | .error a, .error b =>
        if h : a = b then .isTrue (congrArg Except.error h)
        else .isFalse (fun hc => h (Except.error.inj hc))
    | .ok a, .ok b =>
        if h : a = b then .isTrue (congrArg Except.ok h)
        else .isFalse (fun hc => h (Except.ok.inj hc))
    | .error _, .ok _ => .isFalse (fun hc => Except.noConfusion hc)
    | .ok _, .error _ => .isFalse (fun hc => Except.noConfusion hc)

/-- `sorted(list(set(files)))`: deduplicate and sort lexicographically. -/
def sortedDedup (files : List String) : List String :=
  List.insertionSort strLE files.dedup

/-- The expansion of one argument: glob for a wildcard entry, the literal
entry otherwise. -/
def expansion (gl : Glob) (path : String) : List String :=
  if hasWildcard path then gl path else [path]

/-- The `for path in path_list` loop of `parse_paths`: `files` is
extended with the glob expansion of each wildcard entry and with each
literal entry as given. -/
def expandAll (gl : Glob) : List String → List String
  | [] => []
  | p :: rest => expansion gl p ++ expandAll gl rest

/-- `helper.parse_paths`: raise `NoFileInput` on an empty list; if the
list is a single entry containing a wildcard, glob that entry alone;
otherwise run the expansion loop over all entries; return the sorted
deduplication. -/
def parse_paths (gl : Glob) (paths : List String) : Except NoFileInput (List String) :=
  if paths = [] then
    .error .noFileInput
  else
    let files :=
      match paths with
      | [p] => if hasWildcard p then gl p else expandAll gl [p]
      | _ => expandAll gl paths
    .ok (sortedDedup files)

/-- A per-file error report, as `console.print` emits it in `update_tag`:
the offending file path together with the exception message. -/
abbrev Report := String × String

/-- Functional update of the filesystem at one path. -/
def fsSet (fs : FS) (file : String) (obj : FileObj) : FS :=
  fun p => if p = file then obj else fs p

/-- `helper.update_tag`: open the file's tag container (`ID3NoHeaderError`
means: start from an empty container); any other exception is reported
(path and cause) and the file is skipped; otherwise set the tag and save
back to the same file.  Returns the new filesystem and the report, if
any. -/
def update_tag (fs : FS) (file tag value : String) : FS × Option Report :=
  match fs file with
  | .corrupt msg => (fs, some (file, msg))
  | .headerless len br => (fsSet fs file (.audio (setTag [] tag value) len br), none)
  | .audio tags len br => (fsSet fs file (.audio (setTag tags tag value) len br), none)

/-- `helper.batch_update_tag`: apply `update_tag` to every file in list
order, collecting the per-file reports in order. -/
def batch_update_tag (fs : FS) (files : List String) (tag value : String) :
    FS × List Report :=
  match files with
  | [] => (fs, [])
  | f :: rest =>
      let step := update_tag fs f tag value
      let next := batch_update_tag step.1 rest tag value
      (next.1, step.2.toList ++ next.2)

/-- `helper.Chapter`: name, duration, start and end (the source's `end`
field, a reserved word in Lean, is called `stop` here), all times in
integer milliseconds. -/
structure Chapter where
  name : String
  duration : Nat
  start : Nat
  stop : Nat
  deriving DecidableEq, Repr

/-- How `generate_ffmetadata` aborts: `openError file msg` is the
`sys.exit` taken when `MP3(file)` or `EasyID3(file)` raises (the exit
message names the file and the cause); `missingTitle key` is the uncaught
`KeyError` raised by `id3["title"][0]` outside the `try` block when the
title tag is absent — it carries only the missing frame key, not the
file. -/
inductive GenAbort where
  | openError (file msg : String)
  | missingTitle (key : String)
  deriving DecidableEq, Repr

/-- Whether an abort value names a given file (only the `sys.exit` branch
does). -/
def GenAbort.namesFile : GenAbort → String → Prop
  | .openError f _, file => f = file
  | .missingTitle _, _ => False

/-- The body of `generate_ffmetadata`'s loop up to the chapter layout:
open the file (`MP3(file)`, `EasyID3(file)`; any exception is the
`sys.exit` naming the file), then read `id3["title"][0]` (absence is the
uncaught `KeyError`) and the duration. -/
def readChapterInfo (fs : FS) (file : String) : Except GenAbort (String × Nat) :=
  match fs file with
  | .corrupt msg => .error (.openError file msg)
  | .headerless _ _ => .error (.openError file "ID3NoHeaderError")
  | .audio tags len _ =>
      match lookupTag tags "title" with
      | none => .error (.missingTitle "TIT2")
      | some name => .ok (name, len)

/-- The loop of `generate_ffmetadata`, abstracted to the list of
`Chapter` values its iterations compute (each iteration's `name`,
`duration`, `start = playhead`, `end = playhead + duration`), starting
from playhead `playhead`. -/
def generateChaptersAux (fs : FS) (playhead : Nat) :
    List String → Except GenAbort (List Chapter)
  | [] => .ok []
  | file :: rest =>
      match readChapterInfo fs file with
      | .error e => .error e
      | .ok (name, len) =>
          (generateChaptersAux fs (playhead + len) rest).map
            (fun cs => ⟨name, len, playhead, playhead + len⟩ :: cs)

/-- The chapter list computed by `generate_ffmetadata`'s loop, playhead
starting at 0. -/
def generate_chapters (fs : FS) (files : List String) : Except GenAbort (List Chapter) :=
  generateChaptersAux fs 0 files

/-- The fixed `;FFMETADATA` header of `generate_ffmetadata`. -/
def ffmetadataHeader : String :=
  ";FFMETADATA\ntitle=Empty\nartist=Empty\ngenre=AudioBook"

/-- One `[CHAPTER]` block as `generate_ffmetadata` appends it. -/
def renderChapter (c : Chapter) : String :=
  "\n[CHAPTER]\nTIMEBASE=1/1000\nSTART=" ++ toString c.start ++
    "\nEND=" ++ toString c.stop ++ "\ntitle=" ++ c.name

/-- `helper.generate_ffmetadata`: the serialized metadata document —
header followed by one chapter block per file — or the abort. -/
def generate_ffmetadata (fs : FS) (files : List String) : Except GenAbort String :=
  (generate_chapters fs files).map
    (fun cs => cs.foldl (fun acc c => acc ++ renderChapter c) ffmetadataHeader)

/-- The duration `generate_ffmetadata` reads for a file
(`int(mp3.info.length * 1000)`); unreadable files have no duration and
return 0 here (they abort generation before the duration is used). -/
def durationOf (fs : FS) (file : String) : Nat :=
  match fs file with
  | .audio _ len _ => len
  | .headerless len _ => len
  | .corrupt _ => 0

/-- `helper.get_bitrate`: `int(MP3(file).info.bitrate / 1000)`; any
exception while opening becomes the same `sys.exit` message (file and
cause) as in `generate_ffmetadata`.  `MP3(file)` succeeds on a headerless
MP3, so only corrupt files abort.  The float division truncates, which on
a non-negative integer bitrate is `Nat` division. -/
def get_bitrate (fs : FS) (file : String) : Except GenAbort Nat :=
  match fs file with
  | .corrupt msg => .error (.openError file msg)
  | .headerless _ br => .ok (br / 1000)
  | .audio _ _ br => .ok (br / 1000)

/-- Python truthiness of the `bitrate` argument in `concatenate_audio`:
`not bitrate` holds for `None` and for `0`. -/
def bitrateFalsy : Option Int → Bool
  | none => true
  | some b => b = 0

/-- How `concatenate_audio` can abort before invoking the encoder:
`exitError` is a `sys.exit` raised by `get_bitrate` or
`generate_ffmetadata`; `indexError` is the uncaught `IndexError` from
`files[0]` when the list is empty and the default bitrate is taken. -/
inductive ConcatError where
  | exitError (e : GenAbort)
  | indexError
  deriving DecidableEq, Repr

/-- What `concatenate_audio` hands to the `ffmpeg` subprocess: the input
files in manifest order, the metadata document, the resolved bitrate (the
`-b:a` option is `bitrate` followed by `"k"`), and the output path. -/
structure EncoderInvocation where
  files : List String
  metadata : String
  bitrate : Int
  output : String
  deriving DecidableEq, Repr

/-- The argument list of the encoder subprocess, given the names of the
two temporary documents. -/
def ffmpegCommand (manifestName metadataName : String) (bitrate : Int)
    (output : String) : List String :=
  ["ffmpeg", "-v", "info", "-f", "concat", "-safe", "0", "-i", manifestName,
    "-i", metadataName, "-map_metadata", "1", "-c:a", "aac", "-b:a",
    toString bitrate ++ "k", output]

/-- `helper.concatenate_audio` up to the encoder call: resolve the
bitrate (`if not bitrate: bitrate = get_bitrate(files[0])`), generate the
metadata document, and return the encoder invocation. -/
def concatenate_audio (fs : FS) (files : List String) (output : String)
    (bitrate : Option Int) : Except ConcatError EncoderInvocation :=
  let resolved : Except ConcatError Int :=
    if bitrateFalsy bitrate then
      match files with
      | [] => .error .indexError
      | f :: _ =>
          match get_bitrate fs f with
          | .error e => .error (.exitError e)
          | .ok n => .ok (n : Int)
    else .ok (bitrate.getD 0)
  match resolved with
  | .error e => .error e
  | .ok br =>
      match generate_ffmetadata fs files with
      | .error e => .error (.exitError e)
      | .ok meta => .ok ⟨files, meta, br, output⟩

/-- The seven tag keys `cli.show_tags` displays (`cli.TAGS`). -/
def TAGS : List String :=
  ["title", "album", "artist", "albumartist", "composer", "discnumber",
    "tracknumber"]

/-- The ID3 frame id behind each of the `EasyID3` keys `show-tags` reads;
a missing tag surfaces as a `KeyError` carrying this frame id, not the
file path. -/
def frameId : String → String
  | "title" => "TIT2"
  | "album" => "TALB"
  | "artist" => "TPE1"
  | "albumartist" => "TPE2"
  | "composer" => "TCOM"
  | "discnumber" => "TPOS"
  | "tracknumber" => "TRCK"
  | k => k

/-- `os.path.basename` on a POSIX path. -/
def basename (p : String) : String :=
  (p.splitOn "/").getLastD p

/-- How `cli.show_tags` ends without printing a table: `openError` is the
caught open failure (`click.echo` of the file and cause, then `return`);
`missingTag` is the uncaught `KeyError` from `id3[tag][0]`, carrying only
the missing frame id. -/
inductive ShowAbort where
  | openError (file msg : String)
  | missingTag (key : String)
  deriving DecidableEq, Repr

/-- Look up each of the given tag keys; the first absent one raises the
`KeyError` with its frame id. -/
def collectTags (tags : Tags) : List String → Except String (List String)
  | [] => .ok []
  | t :: ts =>
      match lookupTag tags t with
      | none => .error (frameId t)
      | some v => (collectTags tags ts).map (v :: ·)

/-- The loop of `cli.show_tags`: one data row per file in order, stopping
at the first file that fails to open (echo and return) or lacks one of
the seven tags (uncaught `KeyError`). -/
def showTagsAux (fs : FS) : List String → Except ShowAbort (List (List String))
  | [] => .ok []
  | f :: rest =>
      match fs f with
      | .corrupt msg => .error (.openError f msg)
      | .headerless _ _ => .error (.openError f "ID3NoHeaderError")
      | .audio tags _ _ =>
          match collectTags tags TAGS with
          | .error k => .error (.missingTag k)
          | .ok row => (showTagsAux fs rest).map (fun rows => (basename f :: row) :: rows)

/-- The header row of the `show-tags` table. -/
def showTagsHeader : List String :=
  ["File", "Title", "Album", "Author", "Album Artist", "Narrator", "Disc",
    "Track"]

/-- `cli.show_tags`: the printed table (header row first) when every file
opens and yields all seven tags, otherwise the abort. -/
def show_tags (fs : FS) (files : List String) :
    Except ShowAbort (List (List String)) :=
  (showTagsAux fs files).map (fun rows => showTagsHeader :: rows)

/-- `cli.change_title`: resolve paths, then batch-set the `title` tag. -/
def change_title (gl : Glob) (fs : FS) (titleName : String)
    (paths : List String) : Except NoFileInput (FS × List Report) :=
  (parse_paths gl paths).map (fun files => batch_update_tag fs files "title" titleName)

/-- `cli.change_author`: resolve paths, then batch-set the `author` tag. -/
def change_author (gl : Glob) (fs : FS) (authorName : String)
    (paths : List String) : Except NoFileInput (FS × List Report) :=
  (parse_paths gl paths).map (fun files => batch_update_tag fs files "author" authorName)

/-- `cli.change_narrator`: resolve paths, then batch-set the `composer`
tag. -/
def change_narrator (gl : Glob) (fs : FS) (narratorName : String)
    (paths : List String) : Except NoFileInput (FS × List Report) :=
  (parse_paths gl paths).map (fun files => batch_update_tag fs files "composer" narratorName)

/-- `cli.change_tag`: resolve paths, then batch-set the given tag. -/
def change_tag (gl : Glob) (fs : FS) (tag value : String)
    (paths : List String) : Except NoFileInput (FS × List Report) :=
  (parse_paths gl paths).map (fun files => batch_update_tag fs files tag value)

/-- Whether opening this file raises a non-`ID3NoHeaderError` exception
(the catch-all branch of `update_tag`). -/
def isCorrupt : FileObj → Bool
  | .corrupt _ => true
  | _ => false

/-- The effect of one `update_tag` call on the file it targets: a corrupt
file is left as it was (the error is only reported); otherwise the tag is
set on the existing container (an empty one for a headerless file) and
saved back. -/
def updatedObj (obj : FileObj) (tag value : String) : FileObj :=
  match obj with
  | .corrupt m => .corrupt m
  | .headerless len br => .audio (setTag [] tag value) len br
  | .audio tags len br => .audio (setTag tags tag value) len br

/-- The value a file's tag container holds for a key (`none` when the
file has no readable container or the key is absent). -/
def fileTag : FileObj → String → Option String
  | .audio tags _ _, k => lookupTag tags k
  | _, _ => none

/-- Whether `EasyID3(file)` succeeds on this file. -/
def opensOk : FileObj → Bool
  | .audio _ _ _ => true
  | _ => false

/-- Whether a file carries all seven tags `show-tags` displays. -/
def hasAllTags (obj : FileObj) : Bool :=
  TAGS.all (fun t => (fileTag obj t).isSome)

/-- Whether `show-tags` can produce this file's row: the file opens as a
tag container and has all seven displayed tags. -/
def goodFile (obj : FileObj) : Bool :=
  opensOk obj && hasAllTags obj

/-- The title tag `generate_ffmetadata` reads (`none` also when the file
does not open as a tag container). -/
def titleOf (fs : FS) (file : String) : Option String :=
  match fs file with
  | .audio tags _ _ => lookupTag tags "title"
  | _ => none

/-- Fixture: a two-file library with titled tracks of 1000 ms and
2000 ms. -/
def fsTwoTracks : FS := fun p =>
  if p = "01.mp3" then .audio [("title", "One")] 1000 128000
  else .audio [("title", "Two")] 2000 128000

/-- Fixture: a single readable track with no title tag. -/
def fsUntitled : FS := fun _ => .audio [] 1000 128000

/-- Fixture: `bad.mp3` is corrupt, everything else is a titled track. -/
def fsOneBad : FS := fun p =>
  if p = "bad.mp3" then .corrupt "oops"
  else .audio [("title", "One"), ("album", "A")] 1000 128000

/-- Fixture: every file carries all seven displayed tags. -/
def fsFullTags : FS := fun _ =>
  .audio [("title", "T"), ("album", "AL"), ("artist", "AR"),
    ("albumartist", "AA"), ("composer", "C"), ("discnumber", "1"),
    ("tracknumber", "2")] 1000 128000

/-- Fixture: the batch update of the album tag on the single resolved
file `a.mp3` of `fsFullTags`. -/
def albumBatch : FS × List Report :=
  batch_update_tag fsFullTags ["a.mp3"] "album" "X"

/-! ## General lemmas about the embedded operations -/

theorem sortedDedup_sorted (l : List String) :
    List.Sorted strLE (sortedDedup l) :=
  List.sorted_insertionSort _ _

theorem sortedDedup_nodup (l : List String) : (sortedDedup l).Nodup :=
  (List.perm_insertionSort _ _).nodup_iff.mpr l.nodup_dedup

theorem mem_sortedDedup (l : List String) (x : String) :
    x ∈ sortedDedup l ↔ x ∈ l := by
  unfold sortedDedup
  rw [List.Perm.mem_iff (List.perm_insertionSort _ _), List.mem_dedup]

theorem mem_expandAll (gl : Glob) (ps : List String) (x : String) :
    x ∈ expandAll gl ps ↔ ∃ p ∈ ps, x ∈ expansion gl p := by
  induction ps with
  | nil => simp [expandAll]
  | cons p rest ih => simp [expandAll, ih]

/-! ## C4: rejection of empty input -/

/-- C4 counterexample: a single wildcard argument that matches nothing
resolves to no paths at all, yet `parse_paths` succeeds with an empty
result instead of failing with `NoFileInput` — so "no paths resolved"
does not imply the `NoFileInput` error. -/
theorem C4_counterexample :
    parse_paths (fun _ => []) ["*.mp3"] = Except.ok [] := by decide

/-- C4 (amended): `parse_paths` fails with `NoFileInput` exactly when the
input argument list itself is empty; a non-empty argument list never
raises it, even when it resolves to no files. -/
theorem C4_empty_input_rejected (gl : Glob) (paths : List String) :
    parse_paths gl paths = Except.error NoFileInput.noFileInput ↔ paths = [] := by
  unfold parse_paths
  split
  · simp [*]
  · simp [*]

/-! ## C3: the single-wildcard fast path -/

/-- C3 counterexample: in the list `["a.mp3", "*.mp3"]` exactly one entry
contains a wildcard, yet the resolver does not return that entry's
expansion (`["b.mp3"]`) verbatim — the literal co-supplied entry is
unioned in. -/
theorem C3_counterexample :
    parse_paths (fun p => if p = "*.mp3" then ["b.mp3"] else []) ["a.mp3", "*.mp3"]
        = Except.ok ["a.mp3", "b.mp3"]
      ∧ sortedDedup ((fun p => if p = "*.mp3" then ["b.mp3"] else []) "*.mp3")
        = ["b.mp3"] := by
  constructor
  · decide
  · decide

/-- C3 (amended): the exclusive fast path applies only when the argument
list has exactly one entry and that entry contains a wildcard; the result
is then the sorted deduplication of that entry's glob expansion alone. -/
theorem C3_singleton_fast_path (gl : Glob) (p : String)
    (h : hasWildcard p = true) :
    parse_paths gl [p] = Except.ok (sortedDedup (gl p)) := by
  simp [parse_paths, h]

/-- C3 witness: the fast-path theorem applied to the concrete pattern
`"*.x"` under a glob that returns two files. -/
theorem C3_singleton_fast_path_witness :
    parse_paths (fun _ => ["b.mp3", "a.mp3"]) ["*.x"]
      = Except.ok (sortedDedup ((fun _ => ["b.mp3", "a.mp3"]) "*.x")) :=
  C3_singleton_fast_path (fun _ => ["b.mp3", "a.mp3"]) "*.x" (by decide)

/-! ## C5: the resolved set is the sorted deduplicated union -/

/-- C5: for every non-empty argument list, `parse_paths` succeeds and its
result is lexicographically sorted, duplicate-free, and contains exactly
the union of each entry's expansion (glob matches for wildcard entries,
the literal entry otherwise). -/
theorem C5_resolved_set (gl : Glob) (paths : List String) (hne : paths ≠ []) :
    ∃ files, parse_paths gl paths = Except.ok files
      ∧ List.Sorted strLE files ∧ files.Nodup
      ∧ ∀ x, x ∈ files ↔ ∃ p ∈ paths, x ∈ expansion gl p := by
  match paths with
  | [] => exact absurd rfl hne
  | [p] =>
      by_cases h : hasWildcard p = true
      · refine ⟨sortedDedup (gl p), ?_, sortedDedup_sorted _, sortedDedup_nodup _, ?_⟩
        · simp [parse_paths, h]
        · intro x
          simp [mem_sortedDedup, expansion, h]
      · refine ⟨sortedDedup (expandAll gl [p]), ?_, sortedDedup_sorted _,
          sortedDedup_nodup _, ?_⟩
        · simp [parse_paths, h]
        · intro x
          simp [mem_sortedDedup, mem_expandAll]
  | p :: q :: rest =>
      refine ⟨sortedDedup (expandAll gl (p :: q :: rest)), ?_,
        sortedDedup_sorted _, sortedDedup_nodup _, ?_⟩
      · rfl
      · intro x
        simp [mem_sortedDedup, mem_expandAll]

/-- C5 witness: the resolved-set theorem applied to a concrete two-entry
list mixing a literal and a wildcard. -/
theorem C5_resolved_set_witness :
    ∃ files,
      parse_paths (fun _ => ["c.mp3", "b.mp3"]) ["a.mp3", "*.mp3"]
        = Except.ok files
      ∧ List.Sorted strLE files ∧ files.Nodup
      ∧ ∀ x, x ∈ files ↔
          ∃ p ∈ ["a.mp3", "*.mp3"],
            x ∈ expansion (fun _ => ["c.mp3", "b.mp3"]) p :=
  C5_resolved_set (fun _ => ["c.mp3", "b.mp3"]) ["a.mp3", "*.mp3"] (by decide)

/-! ## C1: chapter contiguity -/

theorem readChapterInfo_ok_duration (fs : FS) (f name : String) (len : Nat)
    (h : readChapterInfo fs f = Except.ok (name, len)) :
    durationOf fs f = len := by
  unfold readChapterInfo at h
  cases hf : fs f with
  | corrupt m => rw [hf] at h; exact absurd h (by simp)
  | headerless l b => rw [hf] at h; exact absurd h (by simp)
  | audio tags l b =>
      rw [hf] at h
      dsimp only at h
      cases ht : lookupTag tags "title" with
      | none => rw [ht] at h; exact absurd h (by simp)
      | some n =>
          rw [ht] at h
          simp only [Except.ok.injEq, Prod.mk.injEq] at h
          simp [durationOf, hf, h.2]

theorem readChapterInfo_error_of_no_title (fs : FS) (f : String)
    (ht : titleOf fs f = none) (p : String × Nat) :
    readChapterInfo fs f ≠ Except.ok p := by
  intro h
  unfold readChapterInfo at h
  unfold titleOf at ht
  cases hf : fs f with
  | corrupt m => rw [hf] at h; exact absurd h (by simp)
  | headerless l b => rw [hf] at h; exact absurd h (by simp)
  | audio tags l b =>
      rw [hf] at h
      rw [hf] at ht
      dsimp only at h
      dsimp only at ht
      rw [ht] at h
      exact absurd h (by simp)

theorem generateChaptersAux_spec (fs : FS) :
    ∀ (files : List String) (playhead : Nat) (cs : List Chapter),
      generateChaptersAux fs playhead files = Except.ok cs →
      cs.length = files.length
      ∧ (∀ h0 : 0 < cs.length, (cs.get ⟨0, h0⟩).start = playhead)
      ∧ (∀ i (h1 : i < cs.length) (h2 : i < files.length),
          (cs.get ⟨i, h1⟩).stop
            = (cs.get ⟨i, h1⟩).start + durationOf fs (files.get ⟨i, h2⟩))
      ∧ (∀ i (h1 : i + 1 < cs.length) (h0 : i < cs.length),
          (cs.get ⟨i + 1, h1⟩).start = (cs.get ⟨i, h0⟩).stop) := by
  intro files
  induction files with
  | nil =>
      intro playhead cs h
      simp only [generateChaptersAux] at h
      cases h
      refine ⟨rfl, ?_, ?_, ?_⟩
      · intro h0; exact absurd h0 (by simp)
      · intro i h1; exact absurd h1 (by simp)
      · intro i h1; exact absurd h1 (by simp)
  | cons f rest ih =>
      intro playhead cs h
      simp only [generateChaptersAux] at h
      cases hi : readChapterInfo fs f with
      | error e => rw [hi] at h; exact absurd h (by simp)
      | ok p =>
          obtain ⟨name, len⟩ := p
          rw [hi] at h
          dsimp only at h
          cases hr : generateChaptersAux fs (playhead + len) rest with
          | error e => rw [hr] at h; exact absurd h (by simp [Except.map])
          | ok cs' =>
              rw [hr] at h
              simp only [Except.map, Except.ok.injEq] at h
              subst h
              obtain ⟨hlen, hfirst, hdur, hcons⟩ := ih (playhead + len) cs' hr
              refine ⟨by simp [hlen], ?_, ?_, ?_⟩
              · intro h0; rfl
              · intro i h1 h2
                cases i with
                | zero =>
                    simp [List.get, readChapterInfo_ok_duration fs f name len hi]
                | succ j =>
                    exact hdur j (by simpa using h1) (by simpa using h2)
              · intro i h1 h0
                cases i with
                | zero =>
                    have h0' : 0 < cs'.length := by simpa using h1
                    have := hfirst h0'
                    simpa [List.get] using this
                | succ j =>
                    exact hcons j (by simpa using h1) (by simpa using h0)

/-- C1: whenever `generate_ffmetadata`'s loop completes, the chapters it
laid out are contiguous: one chapter per file in the given order, the
first starts at 0, each ends at its start plus its file's duration, and
each next chapter starts where the previous one ended. -/
theorem C1_chapter_contiguity (fs : FS) (files : List String) (cs : List Chapter)
    (h : generate_chapters fs files = Except.ok cs) :
    cs.length = files.length
    ∧ (∀ h0 : 0 < cs.length, (cs.get ⟨0, h0⟩).start = 0)
    ∧ (∀ i (h1 : i < cs.length) (h2 : i < files.length),
        (cs.get ⟨i, h1⟩).stop
          = (cs.get ⟨i, h1⟩).start + durationOf fs (files.get ⟨i, h2⟩))
    ∧ (∀ i (h1 : i + 1 < cs.length) (h0 : i < cs.length),
        (cs.get ⟨i + 1, h1⟩).start = (cs.get ⟨i, h0⟩).stop) :=
  generateChaptersAux_spec fs files 0 cs h

/-- C1 witness: the contiguity theorem applied to two concrete tracks of
1000 ms and 2000 ms, whose chapters are `[0, 1000)` and `[1000, 3000)`. -/
theorem C1_chapter_contiguity_witness :
    ([⟨"One", 1000, 0, 1000⟩, ⟨"Two", 2000, 1000, 3000⟩] : List Chapter).length
        = (["01.mp3", "02.mp3"] : List String).length
    ∧ (∀ h0 : 0 < ([⟨"One", 1000, 0, 1000⟩, ⟨"Two", 2000, 1000, 3000⟩] : List Chapter).length,
        (([⟨"One", 1000, 0, 1000⟩, ⟨"Two", 2000, 1000, 3000⟩] : List Chapter).get ⟨0, h0⟩).start = 0)
    ∧ (∀ i (h1 : i < ([⟨"One", 1000, 0, 1000⟩, ⟨"Two", 2000, 1000, 3000⟩] : List Chapter).length)
        (h2 : i < (["01.mp3", "02.mp3"] : List String).length),
        (([⟨"One", 1000, 0, 1000⟩, ⟨"Two", 2000, 1000, 3000⟩] : List Chapter).get ⟨i, h1⟩).stop
          = (([⟨"One", 1000, 0, 1000⟩, ⟨"Two", 2000, 1000, 3000⟩] : List Chapter).get ⟨i, h1⟩).start
            + durationOf fsTwoTracks ((["01.mp3", "02.mp3"] : List String).get ⟨i, h2⟩))
    ∧ (∀ i (h1 : i + 1 < ([⟨"One", 1000, 0, 1000⟩, ⟨"Two", 2000, 1000, 3000⟩] : List Chapter).length)
        (h0 : i < ([⟨"One", 1000, 0, 1000⟩, ⟨"Two", 2000, 1000, 3000⟩] : List Chapter).length),
        (([⟨"One", 1000, 0, 1000⟩, ⟨"Two", 2000, 1000, 3000⟩] : List Chapter).get ⟨i + 1, h1⟩).start
          = (([⟨"One", 1000, 0, 1000⟩, ⟨"Two", 2000, 1000, 3000⟩] : List Chapter).get ⟨i, h0⟩).stop) :=
  C1_chapter_contiguity fsTwoTracks ["01.mp3", "02.mp3"]
    [⟨"One", 1000, 0, 1000⟩, ⟨"Two", 2000, 1000, 3000⟩] (by decide)

/-! ## C2: missing title during chapter generation -/

/-- C2 counterexample: on a readable file with no title tag the generator
does abort, but the error is the unhandled `KeyError` carrying only the
frame key `TIT2` — it does not identify which file was at fault, contrary
to the claim. -/
theorem C2_counterexample :
    generate_chapters fsUntitled ["book.mp3"]
        = Except.error (GenAbort.missingTitle "TIT2")
    ∧ (GenAbort.missingTitle "TIT2").namesFile "book.mp3" = False :=
  ⟨by decide, rfl⟩

theorem generateChaptersAux_error_of_missing_title (fs : FS) :
    ∀ (files : List String) (playhead : Nat) (f : String), f ∈ files →
      titleOf fs f = none →
      ∀ cs, generateChaptersAux fs playhead files ≠ Except.ok cs := by
  intro files
  induction files with
  | nil => intro playhead f hmem; exact absurd hmem (by simp)
  | cons g rest ih =>
      intro playhead f hmem ht cs h
      simp only [generateChaptersAux] at h
      cases hi : readChapterInfo fs g with
      | error e => rw [hi] at h; exact absurd h (by simp)
      | ok p =>
          obtain ⟨name, len⟩ := p
          rw [hi] at h
          dsimp only at h
          cases hr : generateChaptersAux fs (playhead + len) rest with
          | error e => rw [hr] at h; exact absurd h (by simp [Except.map])
          | ok cs' =>
              rcases List.mem_cons.mp hmem with heq | hmem'
              · subst heq
                exact readChapterInfo_error_of_no_title fs f ht (name, len) hi
              · exact ih (playhead + len) f hmem' ht cs' hr

/-- C2 (amended): a file whose title tag cannot be read still makes the
whole combine fatal — the generator aborts and never produces a chapter
list — but an abort caused by a missing title is an unhandled key lookup
error that reports only the missing frame key, never the offending
file's path. -/
theorem C2_missing_title_fatal (fs : FS) (files : List String) (f : String)
    (hmem : f ∈ files) (ht : titleOf fs f = none) :
    (∀ cs, generate_chapters fs files ≠ Except.ok cs)
    ∧ ∀ key file, ¬ (GenAbort.missingTitle key).namesFile file :=
  ⟨fun cs => generateChaptersAux_error_of_missing_title fs files 0 f hmem ht cs,
    fun _ _ h => h⟩

/-- C2 witness: the amended theorem applied to the concrete untitled
single-file library. -/
theorem C2_missing_title_fatal_witness :
    (∀ cs, generate_chapters fsUntitled ["book.mp3"] ≠ Except.ok cs)
    ∧ ∀ key file, ¬ (GenAbort.missingTitle key).namesFile file :=
  C2_missing_title_fatal fsUntitled ["book.mp3"] "book.mp3" (by simp) (by decide)

/-! ## Tag-editor lemmas -/

theorem lookupTag_setTag_self (tags : Tags) (k v : String) :
    lookupTag (setTag tags k v) k = some v := by
  induction tags with
  | nil => simp [setTag, lookupTag]
  | cons kv rest ih =>
      obtain ⟨k', v'⟩ := kv
      by_cases h : k' = k
      · subst h; simp [setTag, lookupTag]
      · simp [setTag, lookupTag, h, ih]

theorem lookupTag_setTag_other (tags : Tags) (k v q : String) (h : q ≠ k) :
    lookupTag (setTag tags k v) q = lookupTag tags q := by
  have hkq : ¬ k = q := fun hc => h hc.symm
  induction tags with
  | nil => simp [setTag, lookupTag, hkq]
  | cons kv rest ih =>
      obtain ⟨k', v'⟩ := kv
      by_cases hk : k' = k
      · subst hk
        simp [setTag, lookupTag, hkq]
      · simp [setTag, lookupTag, hk, ih]

theorem update_tag_fst_self (fs : FS) (f tag value : String) :
    (update_tag fs f tag value).1 f = updatedObj (fs f) tag value := by
  cases h : fs f <;> simp [update_tag, h, fsSet, updatedObj]

theorem update_tag_fst_other (fs : FS) (f g tag value : String) (h : g ≠ f) :
    (update_tag fs f tag value).1 g = fs g := by
  cases hf : fs f <;> simp [update_tag, hf, fsSet, h]

theorem isCorrupt_update_tag (fs : FS) (f g tag value : String) :
    isCorrupt ((update_tag fs f tag value).1 g) = isCorrupt (fs g) := by
  by_cases h : g = f
  · subst h
    rw [update_tag_fst_self]
    cases fs g <;> rfl
  · rw [update_tag_fst_other fs f g tag value h]

theorem batch_fst_not_mem (files : List String) :
    ∀ (fs : FS) (f tag value : String), f ∉ files →
      (batch_update_tag fs files tag value).1 f = fs f := by
  induction files with
  | nil => intro fs f tag value _; rfl
  | cons g rest ih =>
      intro fs f tag value hn
      have hng : f ≠ g := fun hc => hn (hc ▸ List.mem_cons_self g rest)
      have hnr : f ∉ rest := fun hc => hn (List.mem_cons_of_mem g hc)
      simp only [batch_update_tag]
      rw [ih _ f tag value hnr, update_tag_fst_other _ _ _ _ _ hng]

theorem batch_corrupt_mem (files : List String) :
    ∀ (fs : FS) (f tag value m : String), f ∈ files → fs f = FileObj.corrupt m →
      (batch_update_tag fs files tag value).1 f = fs f
      ∧ (f, m) ∈ (batch_update_tag fs files tag value).2 := by
  induction files with
  | nil => intro fs f tag value m hmem; exact absurd hmem (by simp)
  | cons g rest ih =>
      intro fs f tag value m hmem hf
      have hf1 : (update_tag fs g tag value).1 f = fs f := by
        by_cases hgf : f = g
        · subst hgf; simp [update_tag, hf]
        · exact update_tag_fst_other fs g f tag value hgf
      by_cases hrest : f ∈ rest
      · obtain ⟨h1, h2⟩ :=
          ih ((update_tag fs g tag value).1) f tag value m hrest (hf1.trans hf)
        refine ⟨?_, ?_⟩
        · simp only [batch_update_tag]
          rw [h1, hf1]
        · simp only [batch_update_tag]
          exact List.mem_append_right _ h2
      · have hfg : f = g := by
          rcases List.mem_cons.mp hmem with h | h
          · exact h
          · exact absurd h hrest
        subst hfg
        have hstep : update_tag fs f tag value = (fs, some (f, m)) := by
          simp [update_tag, hf]
        refine ⟨?_, ?_⟩
        · simp only [batch_update_tag, hstep]
          exact batch_fst_not_mem rest fs f tag value hrest
        · simp only [batch_update_tag, hstep]
          exact List.mem_append_left _ (by simp)

theorem batch_noncorrupt_mem (files : List String) :
    ∀ (fs : FS) (f tag value : String), f ∈ files → isCorrupt (fs f) = false →
      ∃ tags len br,
        (batch_update_tag fs files tag value).1 f = FileObj.audio tags len br
        ∧ lookupTag tags tag = some value := by
  induction files with
  | nil => intro fs f tag value hmem; exact absurd hmem (by simp)
  | cons g rest ih =>
      intro fs f tag value hmem hok
      by_cases hrest : f ∈ rest
      · have hok1 : isCorrupt ((update_tag fs g tag value).1 f) = false :=
          (isCorrupt_update_tag fs g f tag value).trans hok
        obtain ⟨tags, len, br, h1, h2⟩ :=
          ih ((update_tag fs g tag value).1) f tag value hrest hok1
        exact ⟨tags, len, br, h1, h2⟩
      · have hfg : f = g := by
          rcases List.mem_cons.mp hmem with h | h
          · exact h
          · exact absurd h hrest
        subst hfg
        have hfin : (batch_update_tag fs (f :: rest) tag value).1 f
            = updatedObj (fs f) tag value := by
          simp only [batch_update_tag]
          rw [batch_fst_not_mem rest _ f tag value hrest, update_tag_fst_self]
        cases hf : fs f with
        | corrupt m => rw [hf] at hok; exact absurd hok (by simp [isCorrupt])
        | headerless len br =>
            refine ⟨setTag [] tag value, len, br, ?_, lookupTag_setTag_self _ _ _⟩
            rw [hfin, hf]; rfl
        | audio tags len br =>
            refine ⟨setTag tags tag value, len, br, ?_, lookupTag_setTag_self _ _ _⟩
            rw [hfin, hf]; rfl

theorem batch_nodup_mem (files : List String) :
    ∀ (fs : FS) (f tag value : String), files.Nodup → f ∈ files →
      (batch_update_tag fs files tag value).1 f = updatedObj (fs f) tag value := by
  induction files with
  | nil => intro fs f tag value _ hmem; exact absurd hmem (by simp)
  | cons g rest ih =>
      intro fs f tag value hnd hmem
      obtain ⟨hgr, hnd'⟩ := List.nodup_cons.mp hnd
      by_cases hfg : f = g
      · subst hfg
        have hrest : f ∉ rest := hgr
        simp only [batch_update_tag]
        rw [batch_fst_not_mem rest _ f tag value hrest, update_tag_fst_self]
      · have hrest : f ∈ rest := by
          rcases List.mem_cons.mp hmem with h | h
          · exact absurd h hfg
          · exact h
        simp only [batch_update_tag]
        rw [ih _ f tag value hnd' hrest,
          update_tag_fst_other fs g f tag value hfg]

theorem fileTag_updatedObj_self (obj : FileObj) (tag value : String)
    (h : isCorrupt obj = false) :
    fileTag (updatedObj obj tag value) tag = some value := by
  cases obj with
  | corrupt m => exact absurd h (by simp [isCorrupt])
  | headerless len br => simp [updatedObj, fileTag, lookupTag_setTag_self]
  | audio tags len br => simp [updatedObj, fileTag, lookupTag_setTag_self]

theorem fileTag_updatedObj_other (obj : FileObj) (tag value k : String)
    (h : k ≠ tag) :
    fileTag (updatedObj obj tag value) k = fileTag obj k := by
  have htk : ¬ tag = k := fun hc => h hc.symm
  cases obj with
  | corrupt m => rfl
  | headerless len br =>
      simp [updatedObj, fileTag, setTag, lookupTag, htk]
  | audio tags len br =>
      simp [updatedObj, fileTag, lookupTag_setTag_other _ _ _ _ h]

theorem parse_paths_ok_nodup (gl : Glob) (paths files : List String)
    (h : parse_paths gl paths = Except.ok files) : files.Nodup := by
  unfold parse_paths at h
  split at h
  · exact absurd h (by simp)
  · simp only [Except.ok.injEq] at h
    rw [← h]
    exact sortedDedup_nodup _

/-! ## C6: per-file error isolation in batch tag updates -/

/-- C6: during a batch tag update, a file whose tag container cannot be
opened is reported with its path and the exception message and left
unchanged, and every readable file in the list — wherever it sits
relative to the failing one — still ends up with the tag set: per-file
open errors never abort the batch. -/
theorem C6_per_file_isolation (fs : FS) (files : List String)
    (tag value f : String) (hmem : f ∈ files) :
    (∀ m, fs f = FileObj.corrupt m →
      (batch_update_tag fs files tag value).1 f = fs f
      ∧ (f, m) ∈ (batch_update_tag fs files tag value).2)
    ∧ (isCorrupt (fs f) = false →
      ∃ tags len br,
        (batch_update_tag fs files tag value).1 f = FileObj.audio tags len br
        ∧ lookupTag tags tag = some value) :=
  ⟨fun m hm => batch_corrupt_mem files fs f tag value m hmem hm,
    fun hok => batch_noncorrupt_mem files fs f tag value hmem hok⟩

/-- C6 witness: in a batch whose first file is corrupt, the readable file
listed after it is still updated — the batch continued past the
failure. -/
theorem C6_per_file_isolation_witness :
    (∀ m, fsOneBad "good.mp3" = FileObj.corrupt m →
      (batch_update_tag fsOneBad ["bad.mp3", "good.mp3"] "title" "New").1 "good.mp3"
          = fsOneBad "good.mp3"
      ∧ ("good.mp3", m)
          ∈ (batch_update_tag fsOneBad ["bad.mp3", "good.mp3"] "title" "New").2)
    ∧ (isCorrupt (fsOneBad "good.mp3") = false →
      ∃ tags len br,
        (batch_update_tag fsOneBad ["bad.mp3", "good.mp3"] "title" "New").1 "good.mp3"
            = FileObj.audio tags len br
        ∧ lookupTag tags "title" = some "New") :=
  C6_per_file_isolation fsOneBad ["bad.mp3", "good.mp3"] "title" "New"
    "good.mp3" (by simp)

/-! ## C8: single-tag commands and their frame condition -/

/-- C8: `change-tag` (and, via the final equalities, `change-title`,
`change-author` and `change-narrator`, which are the same operation at
the tags `title`, `author` and `composer`) sets exactly the requested tag
to the given value on every resolved file that opens, leaves every other
tag of those files unchanged, and leaves every file outside the resolved
set untouched. -/
theorem C8_single_tag_frame (gl : Glob) (fs : FS) (tag value : String)
    (paths files : List String) (fs' : FS) (reps : List Report)
    (hp : parse_paths gl paths = Except.ok files)
    (hok : ∀ f ∈ files, isCorrupt (fs f) = false)
    (hc : change_tag gl fs tag value paths = Except.ok (fs', reps)) :
    (∀ f ∈ files, fileTag (fs' f) tag = some value
      ∧ ∀ k, k ≠ tag → fileTag (fs' f) k = fileTag (fs f) k)
    ∧ (∀ f, f ∉ files → fs' f = fs f)
    ∧ change_title gl fs value paths = change_tag gl fs "title" value paths
    ∧ change_author gl fs value paths = change_tag gl fs "author" value paths
    ∧ change_narrator gl fs value paths = change_tag gl fs "composer" value paths := by
  have hb : batch_update_tag fs files tag value = (fs', reps) := by
    simp only [change_tag, hp, Except.map] at hc
    exact Except.ok.inj hc
  have hfs' : ∀ g, fs' g = (batch_update_tag fs files tag value).1 g := by
    intro g; rw [hb]
  have hnd := parse_paths_ok_nodup gl paths files hp
  refine ⟨?_, ?_, rfl, rfl, rfl⟩
  · intro f hf
    have hup := batch_nodup_mem files fs f tag value hnd hf
    constructor
    · rw [hfs' f, hup]
      exact fileTag_updatedObj_self _ _ _ (hok f hf)
    · intro k hk
      rw [hfs' f, hup]
      exact fileTag_updatedObj_other _ _ _ _ hk
  · intro f hf
    rw [hfs' f]
    exact batch_fst_not_mem files fs f tag value hf

/-- C8 witness: the frame theorem applied to a concrete one-file library
with all tags present, updating the album tag. -/
theorem C8_single_tag_frame_witness :
    (∀ f ∈ ["a.mp3"], fileTag (albumBatch.1 f) "album" = some "X"
      ∧ ∀ k, k ≠ "album" → fileTag (albumBatch.1 f) k = fileTag (fsFullTags f) k)
    ∧ (∀ f, f ∉ ["a.mp3"] → albumBatch.1 f = fsFullTags f)
    ∧ change_title (fun _ => []) fsFullTags "X" ["a.mp3"]
        = change_tag (fun _ => []) fsFullTags "title" "X" ["a.mp3"]
    ∧ change_author (fun _ => []) fsFullTags "X" ["a.mp3"]
        = change_tag (fun _ => []) fsFullTags "author" "X" ["a.mp3"]
    ∧ change_narrator (fun _ => []) fsFullTags "X" ["a.mp3"]
        = change_tag (fun _ => []) fsFullTags "composer" "X" ["a.mp3"] :=
  C8_single_tag_frame (fun _ => []) fsFullTags "album" "X" ["a.mp3"] ["a.mp3"]
    albumBatch.1 albumBatch.2 (by decide) (by decide) rfl

/-! ## C7 and C10: bitrate resolution in the concatenator -/

/-- C7: when no bitrate is supplied, the bitrate of the encoder
invocation is the first file's own detected bitrate as `get_bitrate`
reads it from that file's stream info. -/
theorem C7_default_bitrate (fs : FS) (files : List String) (output : String)
    (inv : EncoderInvocation) (hne : files ≠ [])
    (h : concatenate_audio fs files output none = Except.ok inv) :
    ∃ f rest n, files = f :: rest ∧ get_bitrate fs f = Except.ok n
      ∧ inv.bitrate = (n : Int) := by
  match files with
  | [] => exact absurd rfl hne
  | f :: rest =>
      refine ⟨f, rest, ?_⟩
      simp only [concatenate_audio, bitrateFalsy] at h
      cases hg : get_bitrate fs f with
      | error e => rw [hg] at h; exact absurd h (by simp)
      | ok n =>
          rw [hg] at h
          dsimp only at h
          cases hm : generate_ffmetadata fs (f :: rest) with
          | error e => rw [hm] at h; exact absurd h (by simp)
          | ok meta =>
              rw [hm] at h
              dsimp only at h
              refine ⟨n, rfl, rfl, ?_⟩
              cases h
              rfl

/-- C7 witness: the default-bitrate theorem applied to a concrete
one-file library whose stream bitrate is 128000 bit/s, detected as
128 kbit/s. -/
theorem C7_default_bitrate_witness :
    ∃ f rest n, (["01.mp3"] : List String) = f :: rest
      ∧ get_bitrate fsTwoTracks f = Except.ok n
      ∧ (EncoderInvocation.mk ["01.mp3"]
          ";FFMETADATA\ntitle=Empty\nartist=Empty\ngenre=AudioBook\n[CHAPTER]\nTIMEBASE=1/1000\nSTART=0\nEND=1000\ntitle=One"
          128 "out.m4b").bitrate = (n : Int) :=
  C7_default_bitrate fsTwoTracks ["01.mp3"] "out.m4b"
    (EncoderInvocation.mk ["01.mp3"]
      ";FFMETADATA\ntitle=Empty\nartist=Empty\ngenre=AudioBook\n[CHAPTER]\nTIMEBASE=1/1000\nSTART=0\nEND=1000\ntitle=One"
      128 "out.m4b")
    (by decide) (by decide)

/-- C10: an explicit bitrate of 0 is falsy to the `if not bitrate:` test,
so the concatenator behaves exactly as if no bitrate had been supplied. -/
theorem C10_zero_bitrate_is_default (fs : FS) (files : List String)
    (output : String) :
    concatenate_audio fs files output (some 0)
      = concatenate_audio fs files output none := rfl

/-! ## C9: show-tags prints all rows or nothing -/

theorem collectTags_ok_iff (tags : Tags) :
    ∀ ts : List String, (∃ row, collectTags tags ts = Except.ok row)
      ↔ ∀ t ∈ ts, (lookupTag tags t).isSome = true := by
  intro ts
  induction ts with
  | nil => exact ⟨fun _ => by simp, fun _ => ⟨[], rfl⟩⟩
  | cons t ts ih =>
      cases hl : lookupTag tags t with
      | none =>
          constructor
          · intro ⟨row, hrow⟩
            rw [collectTags, hl] at hrow
            exact absurd hrow (by simp)
          · intro hall
            have := hall t (by simp)
            rw [hl] at this
            exact absurd this (by simp)
      | some v =>
          constructor
          · intro ⟨row, hrow⟩
            rw [collectTags, hl] at hrow
            intro u hu
            rcases List.mem_cons.mp hu with hq | hq
            · subst hq; simp [hl]
            · cases hrest : collectTags tags ts with
              | error k =>
                  rw [hrest] at hrow
                  exact absurd hrow (by simp [Except.map])
              | ok row' =>
                  exact (ih.mp ⟨row', hrest⟩) u hq
          · intro hall
            obtain ⟨row', hrow'⟩ := ih.mpr (fun u hu => hall u (by simp [hu]))
            exact ⟨v :: row', by rw [collectTags, hl, hrow']; rfl⟩

theorem collectTags_error_missing (tags : Tags) :
    ∀ (ts : List String) (k : String), collectTags tags ts = Except.error k →
      ∃ t ∈ ts, lookupTag tags t = none := by
  intro ts
  induction ts with
  | nil => intro k h; exact absurd h (by simp [collectTags])
  | cons t ts ih =>
      intro k h
      cases hl : lookupTag tags t with
      | none => exact ⟨t, by simp, hl⟩
      | some v =>
          rw [collectTags, hl] at h
          cases hrest : collectTags tags ts with
          | error q =>
              obtain ⟨u, hu, hun⟩ := ih q hrest
              exact ⟨u, by simp [hu], hun⟩
          | ok row =>
              rw [hrest] at h
              exact absurd h (by simp [Except.map])

theorem hasAllTags_audio_iff (tags : Tags) (len br : Nat) :
    hasAllTags (FileObj.audio tags len br) = true
      ↔ ∀ t ∈ TAGS, (lookupTag tags t).isSome = true := by
  simp [hasAllTags, fileTag, List.all_eq_true]

theorem showTagsAux_ok_iff (fs : FS) :
    ∀ files : List String, (∃ rows, showTagsAux fs files = Except.ok rows)
      ↔ ∀ f ∈ files, goodFile (fs f) = true := by
  intro files
  induction files with
  | nil => exact ⟨fun _ => by simp, fun _ => ⟨[], rfl⟩⟩
  | cons f rest ih =>
      constructor
      · intro ⟨rows, hrows⟩
        rw [showTagsAux] at hrows
        intro g hg
        cases hf : fs f with
        | corrupt m => rw [hf] at hrows; exact absurd hrows (by simp)
        | headerless len br => rw [hf] at hrows; exact absurd hrows (by simp)
        | audio tags len br =>
            rw [hf] at hrows
            dsimp only at hrows
            cases hc : collectTags tags TAGS with
            | error k => rw [hc] at hrows; exact absurd hrows (by simp)
            | ok row =>
                rw [hc] at hrows
                rcases List.mem_cons.mp hg with hq | hq
                · subst hq
                  rw [hf]
                  simp only [goodFile, opensOk, Bool.true_and]
                  exact (hasAllTags_audio_iff tags len br).mpr
                    ((collectTags_ok_iff tags TAGS).mp ⟨row, hc⟩)
                · cases hrest : showTagsAux fs rest with
                  | error e =>
                      rw [hrest] at hrows
                      exact absurd hrows (by simp [Except.map])
                  | ok rows' => exact ih.mp ⟨rows', hrest⟩ g hq
      · intro hall
        have hf := hall f (by simp)
        cases hfs : fs f with
        | corrupt m => rw [hfs] at hf; exact absurd hf (by simp [goodFile, opensOk])
        | headerless len br =>
            rw [hfs] at hf; exact absurd hf (by simp [goodFile, opensOk])
        | audio tags len br =>
            rw [hfs] at hf
            have htags : ∀ t ∈ TAGS, (lookupTag tags t).isSome = true :=
              (hasAllTags_audio_iff tags len br).mp (by
                simpa [goodFile, opensOk] using hf)
            obtain ⟨row, hrow⟩ := (collectTags_ok_iff tags TAGS).mpr htags
            obtain ⟨rows', hrows'⟩ := ih.mpr (fun g hg => hall g (by simp [hg]))
            refine ⟨(basename f :: row) :: rows', ?_⟩
            rw [showTagsAux, hfs]
            dsimp only
            rw [hrow, hrows']
            rfl

theorem showTagsAux_openError (fs : FS) :
    ∀ (files : List String) (f m : String),
      showTagsAux fs files = Except.error (ShowAbort.openError f m) →
      f ∈ files ∧ opensOk (fs f) = false := by
  intro files
  induction files with
  | nil => intro f m h; exact absurd h (by simp [showTagsAux])
  | cons g rest ih =>
      intro f m h
      rw [showTagsAux] at h
      cases hg : fs g with
      | corrupt msg =>
          rw [hg] at h
          simp only [Except.error.injEq, ShowAbort.openError.injEq] at h
          obtain ⟨hf, _⟩ := h
          subst hf
          exact ⟨by simp, by simp [hg, opensOk]⟩
      | headerless len br =>
          rw [hg] at h
          simp only [Except.error.injEq, ShowAbort.openError.injEq] at h
          obtain ⟨hf, _⟩ := h
          subst hf
          exact ⟨by simp, by simp [hg, opensOk]⟩
      | audio tags len br =>
          rw [hg] at h
          dsimp only at h
          cases hc : collectTags tags TAGS with
          | error k => rw [hc] at h; exact absurd h (by simp)
          | ok row =>
              rw [hc] at h
              cases hrest : showTagsAux fs rest with
              | error e =>
                  rw [hrest] at h
                  simp only [Except.map, Except.error.injEq] at h
                  subst h
                  obtain ⟨h1, h2⟩ := ih f m hrest
                  exact ⟨by simp [h1], h2⟩
              | ok rows' =>
                  rw [hrest] at h
                  exact absurd h (by simp [Except.map])

theorem showTagsAux_missingTag (fs : FS) :
    ∀ (files : List String) (k : String),
      showTagsAux fs files = Except.error (ShowAbort.missingTag k) →
      ∃ f ∈ files, opensOk (fs f) = true ∧ hasAllTags (fs f) = false := by
  intro files
  induction files with
  | nil => intro k h; exact absurd h (by simp [showTagsAux])
  | cons g rest ih =>
      intro k h
      rw [showTagsAux] at h
      cases hg : fs g with
      | corrupt msg => rw [hg] at h; exact absurd h (by simp)
      | headerless len br => rw [hg] at h; exact absurd h (by simp)
      | audio tags len br =>
          rw [hg] at h
          dsimp only at h
          cases hc : collectTags tags TAGS with
          | error q =>
              rw [hc] at h
              obtain ⟨t, ht, htn⟩ := collectTags_error_missing tags TAGS q hc
              refine ⟨g, by simp, by simp [hg, opensOk], ?_⟩
              rw [hg]
              apply Bool.eq_false_iff.mpr
              intro hall
              have := (hasAllTags_audio_iff tags len br).mp hall t ht
              rw [htn] at this
              simp at this
          | ok row =>
              rw [hc] at h
              cases hrest : showTagsAux fs rest with
              | error e =>
                  rw [hrest] at h
                  simp only [Except.map, Except.error.injEq] at h
                  subst h
                  obtain ⟨f, h1, h2, h3⟩ := ih k hrest
                  exact ⟨f, by simp [h1], h2, h3⟩
              | ok rows' =>
                  rw [hrest] at h
                  exact absurd h (by simp [Except.map])

theorem show_tags_error_iff (fs : FS) (files : List String) (e : ShowAbort) :
    show_tags fs files = Except.error e ↔ showTagsAux fs files = Except.error e := by
  unfold show_tags
  cases h : showTagsAux fs files <;> simp [Except.map]

/-- C9: `show-tags` prints its table exactly when every resolved file
opens as a tag container and carries all seven displayed tags; a file
that fails to open makes the command return with an error message naming
that file and print no table, and a file missing one of the seven tags
aborts the command with the unhandled key lookup error — in neither case
is the file skipped. -/
theorem C9_show_tags_all_or_nothing (fs : FS) (files : List String) :
    ((∃ rows, show_tags fs files = Except.ok rows)
      ↔ ∀ f ∈ files, goodFile (fs f) = true)
    ∧ (∀ f m, show_tags fs files = Except.error (ShowAbort.openError f m) →
        f ∈ files ∧ opensOk (fs f) = false)
    ∧ (∀ k, show_tags fs files = Except.error (ShowAbort.missingTag k) →
        ∃ f ∈ files, opensOk (fs f) = true ∧ hasAllTags (fs f) = false) := by
  refine ⟨?_, ?_, ?_⟩
  · rw [← showTagsAux_ok_iff fs files]
    unfold show_tags
    constructor
    · intro ⟨rows, hrows⟩
      cases h : showTagsAux fs files with
      | error e => rw [h] at hrows; exact absurd hrows (by simp [Except.map])
      | ok rows' => exact ⟨rows', rfl⟩
    · intro ⟨rows', h⟩
      exact ⟨showTagsHeader :: rows', by rw [h]; rfl⟩
  · intro f m h
    exact showTagsAux_openError fs files f m
      ((show_tags_error_iff fs files _).mp h)
  · intro k h
    exact showTagsAux_missingTag fs files k
      ((show_tags_error_iff fs files _).mp h)

/-- C9 witness: the all-or-nothing theorem applied to a concrete one-file
library with all seven tags present. -/
theorem C9_show_tags_all_or_nothing_witness :
    ((∃ rows, show_tags fsFullTags ["a.mp3"] = Except.ok rows)
      ↔ ∀ f ∈ ["a.mp3"], goodFile (fsFullTags f) = true)
    ∧ (∀ f m, show_tags fsFullTags ["a.mp3"]
          = Except.error (ShowAbort.openError f m) →
        f ∈ ["a.mp3"] ∧ opensOk (fsFullTags f) = false)
    ∧ (∀ k, show_tags fsFullTags ["a.mp3"]
          = Except.error (ShowAbort.missingTag k) →
        ∃ f ∈ ["a.mp3"], opensOk (fsFullTags f) = true
          ∧ hasAllTags (fsFullTags f) = false) :=
  C9_show_tags_all_or_nothing fsFullTags ["a.mp3"]

end AudiobookPrepper
